import Mathlib

/-!
Verification development for the static-blog posting tool `post.py`.

The tool parses a raw Markdown post (optional leading `YYYY-M-D` date
token, up to three sections separated by a literal `---` + newline),
renders each section to an HTML fragment, decorates headings with a
localized date caption and a self-link, assembles the fragments into one
article anchored by a derived post identifier, and inserts the article
at the front of the site's index, with a recovery file (`backup.md`)
written before any work and deleted only after a fully successful
insertion.

Each operation of the pipeline is embedded shallowly below: Python
strings become `String`/`List Char`, the BeautifulSoup document tree
becomes the inductive `Node`, fallible steps return `Except Err`, and
the filesystem side effects of `main` become explicit state passing over
`FS`.  Definitions follow `post.py`; the Markdown/highlighting engine
(mistune + pygments) is an external dependency and is modelled from the
specification's contract for it, as marked on those definitions.
-/

instance exceptDecEq {ε α : Type} [DecidableEq ε] [DecidableEq α] :
    DecidableEq (Except ε α)
  | .ok a, .ok b =>
    if h : a = b then .isTrue (by rw [h]) else .isFalse (by intro he; cases he; exact h rfl)
  | .ok _, .error _ => .isFalse (by intro he; cases he)
  | .error _, .ok _ => .isFalse (by intro he; cases he)
  | .error e, .error f =>
    if h : e = f then .isTrue (by rw [h]) else .isFalse (by intro he; cases he; exact h rfl)

/-- Calendar date, mirroring `datetime.date` fields. -/
structure Date where
  year : Nat
  month : Nat
  day : Nat
deriving DecidableEq, Repr

/-- Error taxonomy of the pipeline, using the specification's names for
the exceptions the Python code lets escape (`ValueError` from
`datetime.date`, pygments' `ClassNotFound`, `AttributeError` from a
missing heading or missing `<main>` container). -/
inductive Err where
  | dateParse : Err
  | lexerNotFound : String → Err
  | missingHeading : Err
  | indexFormat : Err
deriving DecidableEq, Repr

/-- Python `str.strip` whitespace set (ASCII part). -/
def pyWs (c : Char) : Bool :=
  c = ' ' || c = '\t' || c = '\n' || c = '\r' || c = Char.ofNat 11 || c = Char.ofNat 12

/-- Characters of a string with trailing Python whitespace removed. -/
def rstripChars (l : List Char) : List Char :=
  l.rdropWhile pyWs

/-- Characters of a string with leading and trailing Python whitespace
removed, as in `str.strip()`. -/
def stripChars (l : List Char) : List Char :=
  rstripChars (l.dropWhile pyWs)

/-- Python `markdown.strip()` as a `String` operation. -/
def pyStrip (s : String) : String :=
  String.mk (stripChars s.data)

/-- Python `markdown[n:]`: drop the first `n` characters. -/
def dropChars (s : String) (n : Nat) : String :=
  String.mk (s.data.drop n)

/-- Numeric value of a digit character. -/
def dv (c : Char) : Nat := c.toNat - 48

/-- Value of a digit string, as `int` applied to a regex group. -/
def digitsToNat (l : List Char) : Nat :=
  l.foldl (fun n c => 10 * n + dv c) 0

/-- Match of `\d{1,2}-` (regex month group plus following hyphen) at the
head of the character list, greedy with backtracking as in `re`:
returns the month value, the number of characters consumed and the
remaining characters.  Two digits followed by anything other than a
hyphen fail, since the one-digit backtrack would then need the second
digit to be the hyphen. -/
def matchMonth : List Char → Option (Nat × Nat × List Char)
  | [] => none
  | a :: rest =>
    if a.isDigit then
      match rest with
      | [] => none
      | b :: rest2 =>
        if b.isDigit then
          match rest2 with
          | c :: rest3 => if c = '-' then some (10 * dv a + dv b, 3, rest3) else none
          | [] => none
        else if b = '-' then some (dv a, 2, rest2)
        else none
    else none

/-- Match of the final `\d{1,2}` (regex day group) at the head of the
character list, greedy: returns the day value and the number of
characters consumed. -/
def matchDay : List Char → Option (Nat × Nat)
  | [] => none
  | a :: rest =>
    if a.isDigit then
      match rest with
      | b :: _ => if b.isDigit then some (10 * dv a + dv b, 2) else some (dv a, 1)
      | [] => some (dv a, 1)
    else none

/-- Match of the anchored regex `(?P<year>\d{4})-(?P<month>\d{1,2})-(?P<day>\d{1,2})`
on a character list: returns `(year, month, day, matchEnd)` where
`matchEnd` counts the matched characters, as `m.end()` does. -/
def matchDate : List Char → Option (Nat × Nat × Nat × Nat)
  | a :: b :: c :: d :: e :: rest =>
    if a.isDigit && b.isDigit && c.isDigit && d.isDigit && e = '-' then
      match matchMonth rest with
      | some (m, k, rest2) =>
        match matchDay rest2 with
        | some (dd, j) => some (digitsToNat [a, b, c, d], m, dd, 5 + k + j)
        | none => none
      | none => none
    else none
  | _ => none

/-- Gregorian leap-year rule used by `datetime`. -/
def isLeap (y : Nat) : Bool :=
  (y % 4 = 0 && y % 100 ≠ 0) || y % 400 = 0

/-- Length of a month, `datetime`'s calendar. -/
def daysInMonth (y m : Nat) : Nat :=
  match m with
  | 1 => 31 | 2 => if isLeap y then 29 else 28 | 3 => 31 | 4 => 30
  | 5 => 31 | 6 => 30 | 7 => 31 | 8 => 31 | 9 => 30 | 10 => 31
  | 11 => 30 | 12 => 31 | _ => 0

/-- Whether `datetime.date(y, m, d)` succeeds (its constructor raises
`ValueError` otherwise).  `MINYEAR = 1`, `MAXYEAR = 9999`. -/
def validDate (y m d : Nat) : Bool :=
  1 ≤ y && y ≤ 9999 && 1 ≤ m && m ≤ 12 && 1 ≤ d && d ≤ daysInMonth y m

/-- Result of `parse_date`: the resolved date, the remaining Markdown
text, and the number of warnings printed to the diagnostic stream. -/
structure ParseResult where
  date : Date
  rest : String
  warnings : Nat
deriving DecidableEq, Repr

/-- Shallow embedding of `parse_date` from `post.py`: match the date
regex against `markdown.strip()`; on a match construct the date (a
`ValueError` from `datetime.date` is the spec's `DateParseError`) and
return `markdown[m.end():].strip()` — the slice is taken on the
original, unstripped string, exactly as in the source; on no match warn
once and return the date `today` with `markdown` unchanged. -/
def parse_date (today : Date) (markdown : String) : Except Err ParseResult :=
  match matchDate (stripChars markdown.data) with
  | some (y, m, d, e) =>
    if validDate y m d then
      .ok ⟨⟨y, m, d⟩, pyStrip (dropChars markdown e), 0⟩
    else
      .error .dateParse
  | none => .ok ⟨today, markdown, 1⟩

/-- French weekday names, Monday-first, as in `WEEKDAYS["fr"]`. -/
def WEEKDAYS_fr : List String :=
  ["lundi", "mardi", "mercredi", "jeudi", "vendredi", "samedi", "dimanche"]

/-- English weekday names, Monday-first, as in `WEEKDAYS["en"]`. -/
def WEEKDAYS_en : List String :=
  ["Monday", "Tuesday", "Wednesday", "Thursday", "Friday", "Saturday", "Sunday"]

/-- French month names, as in `MONTHS["fr"]`. -/
def MONTHS_fr : List String :=
  ["janvier", "février", "mars", "avril", "mai", "juin",
   "juillet", "août", "septembre", "octobre", "novembre", "décembre"]

/-- English month names, as in `MONTHS["en"]`. -/
def MONTHS_en : List String :=
  ["January", "February", "March", "April", "May", "June",
   "July", "August", "September", "October", "November", "December"]

/-- Days in the months of year `y` strictly before month `m`. -/
def daysBeforeMonth (y m : Nat) : Nat :=
  (List.range (m - 1)).foldl (fun acc i => acc + daysInMonth y (i + 1)) 0

/-- Proleptic Gregorian ordinal of a date, with 0001-01-01 mapping
to 1, as in `datetime.date.toordinal`. -/
def toOrdinal (d : Date) : Nat :=
  365 * (d.year - 1) + (d.year - 1) / 4 - (d.year - 1) / 100 + (d.year - 1) / 400
    + daysBeforeMonth d.year d.month + d.day

/-- Weekday of a date with Monday = 0, as `datetime.date.weekday`. -/
def weekday (d : Date) : Nat :=
  (toOrdinal d + 6) % 7

/-- Python `str.capitalize()`: first character upper-cased, the rest
lower-cased. -/
def pyCapitalize (s : String) : String :=
  match s.data with
  | [] => ""
  | c :: cs => String.mk (c.toUpper :: cs.map Char.toLower)

/-- Shallow embedding of `format_date_fr`. -/
def format_date_fr (d : Date) : String :=
  pyCapitalize (WEEKDAYS_fr.getD (weekday d) "") ++ ", "
    ++ toString d.day ++ " " ++ MONTHS_fr.getD (d.month - 1) "" ++ " " ++ toString d.year

/-- Shallow embedding of `format_date_en`. -/
def format_date_en (d : Date) : String :=
  WEEKDAYS_en.getD (weekday d) "" ++ ", "
    ++ MONTHS_en.getD (d.month - 1) "" ++ " " ++ toString d.day ++ ", " ++ toString d.year

/-- Shallow embedding of the `FORMAT_DATE` dispatch table: a
`defaultdict` holding the two formatters, whose default entry renders
the empty string for every other key. -/
def FORMAT_DATE (code : String) : Date → String :=
  if code = "fr" then format_date_fr
  else if code = "en" then format_date_en
  else fun _ => ""

/-- Node of the parsed HTML tree, the shape BeautifulSoup exposes: an
element with a tag name, attributes and children, or a text node.  A
whole soup (BeautifulSoup object) is an element with the reserved tag
name `[document]` whose children are the fragment's top-level nodes,
matching bs4's own document tag. -/
inductive Node where
  | elem : String → List (String × String) → List Node → Node
  | text : String → Node
deriving Repr

mutual

def decEqNode : (a b : Node) → Decidable (a = b)
  | .text s, .text t =>
    if h : s = t then .isTrue (by rw [h]) else .isFalse (by intro he; cases he; exact h rfl)
  | .text _, .elem _ _ _ => .isFalse (by intro he; cases he)
  | .elem _ _ _, .text _ => .isFalse (by intro he; cases he)
  | .elem t1 a1 k1, .elem t2 a2 k2 =>
    if h1 : t1 = t2 then
      if h2 : a1 = a2 then
        match decEqNodeList k1 k2 with
        | .isTrue h3 => .isTrue (by rw [h1, h2, h3])
        | .isFalse h3 => .isFalse (by intro he; injection he with _ _ hk; exact h3 hk)
      else .isFalse (by intro he; injection he with _ ha _; exact h2 ha)
    else .isFalse (by intro he; injection he with ht _ _; exact h1 ht)

def decEqNodeList : (a b : List Node) → Decidable (a = b)
  | [], [] => .isTrue rfl
  | [], _ :: _ => .isFalse (by intro he; cases he)
  | _ :: _, [] => .isFalse (by intro he; cases he)
  | x :: xs, y :: ys =>
    match decEqNode x y, decEqNodeList xs ys with
    | .isTrue h1, .isTrue h2 => .isTrue (by rw [h1, h2])
    | .isFalse h1, _ => .isFalse (by intro he; injection he with hh _; exact h1 hh)
    | .isTrue _, .isFalse h2 => .isFalse (by intro he; injection he with _ ht; exact h2 ht)

end

instance : DecidableEq Node := decEqNode

/-- Soup (document) node wrapping a fragment's top-level nodes. -/
def docNode (kids : List Node) : Node :=
  Node.elem "[document]" [] kids

mutual

/-- First element with the given tag in a forest, depth-first pre-order,
as bs4 attribute access (`soup.h1`, `soup.main`) finds it. -/
def findTag (tag : String) : List Node → Option Node
  | [] => none
  | n :: ns =>
    match findTagNode tag n with
    | some m => some m
    | none => findTag tag ns

/-- First element with the given tag inside one node, the node itself
included. -/
def findTagNode (tag : String) : Node → Option Node
  | .text _ => none
  | .elem t a kids =>
    if t = tag then some (.elem t a kids)
    else findTag tag kids

end

mutual

/-- Rewrite the first element carrying the given tag in a forest
(depth-first pre-order) through `f`, or return `none` when no such
element exists.  This models the in-place mutation of the found tag in
the BeautifulSoup tree. -/
def mapFirstTag (tag : String) (f : Node → Node) : List Node → Option (List Node)
  | [] => none
  | n :: ns =>
    match mapFirstTagNode tag f n with
    | some n' => some (n' :: ns)
    | none =>
      match mapFirstTag tag f ns with
      | some ns' => some (n :: ns')
      | none => none

/-- Rewrite the first element carrying the given tag inside one node. -/
def mapFirstTagNode (tag : String) (f : Node → Node) : Node → Option Node
  | .text _ => none
  | .elem t a kids =>
    if t = tag then some (f (.elem t a kids))
    else
      match mapFirstTag tag f kids with
      | some kids' => some (.elem t a kids')
      | none => none

end

mutual

/-- Concatenated text content of one node, as `Tag.get_text()`. -/
def getTextNode : Node → String
  | .text s => s
  | .elem _ _ kids => getTextList kids

/-- Concatenated text content of a forest. -/
def getTextList : List Node → String
  | [] => ""
  | n :: ns => getTextNode n ++ getTextList ns

end

/-- HTML escaping of text content, as bs4 applies when serializing. -/
def escapeHtml (s : String) : String :=
  String.join (s.data.map fun c =>
    if c = '&' then "&amp;" else if c = '<' then "&lt;"
    else if c = '>' then "&gt;" else String.mk [c])

/-- Escaping used by `mistune.escape` on unhighlighted code. -/
def mistuneEscape (s : String) : String :=
  String.join (s.data.map fun c =>
    if c = '&' then "&amp;" else if c = '<' then "&lt;"
    else if c = '>' then "&gt;" else if c = '"' then "&quot;" else String.mk [c])

mutual

/-- Serialization of one node, modelling `str(tag)`: a document node
prints only its children, as BeautifulSoup's document tag does. -/
def strNode : Node → String
  | .text s => escapeHtml s
  | .elem t a kids =>
    if t = "[document]" then strNodes kids
    else
      "<" ++ t ++ String.join (a.map fun p => " " ++ p.1 ++ "=" ++ "\"" ++ p.2 ++ "\"")
        ++ ">" ++ strNodes kids ++ "</" ++ t ++ ">"

/-- Serialization of a forest of nodes. -/
def strNodes : List Node → String
  | [] => ""
  | n :: ns => strNode n ++ strNodes ns

end

/-- Split a character list at every occurrence of a single character,
keeping empty pieces, as Python `str.split` with a one-character
separator. -/
def splitChar (c0 : Char) : List Char → List (List Char)
  | [] => [[]]
  | c :: rest =>
    let r := splitChar c0 rest
    if c = c0 then [] :: r
    else
      match r with
      | h :: t => (c :: h) :: t
      | [] => [[c]]

/-- Split at every non-overlapping occurrence of a separator, scanning
left to right, as Python `str.split(sep)`.  `fuel` bounds the scan; it
is instantiated with the input length so it never runs out for a
non-empty separator. -/
def splitSepFuel (sep : List Char) : Nat → List Char → List Char → List (List Char)
  | 0, l, acc => [acc.reverse ++ l]
  | fuel + 1, l, acc =>
    match l with
    | [] => [acc.reverse]
    | c :: rest =>
      if sep.isPrefixOf (c :: rest) then
        acc.reverse :: splitSepFuel sep fuel ((c :: rest).drop sep.length) []
      else
        splitSepFuel sep fuel rest (c :: acc)

/-- Python `s.split(sep)` as a `String` operation. -/
def pySplit (s sep : String) : List String :=
  (splitSepFuel sep.data (s.data.length + 1) s.data []).map String.mk

/-- Lines of a string, splitting at every newline. -/
def linesOf (s : String) : List String :=
  (splitChar '\n' s.data).map String.mk

/-- Prefix test on the characters of a string. -/
def strStarts (s p : String) : Bool :=
  p.data.isPrefixOf s.data

/-- Modelled from the spec: the set of code-fence language tags for
which a pygments lexer exists (`get_lexer_by_name` succeeds).  The
registry itself lives in the external pygments package; the spec only
requires that known tags highlight and unknown tags fail. -/
def knownLanguages : List String :=
  ["python", "bash", "text", "html", "console"]

/-- Shallow embedding of `HighlightingRenderer.block_code`: with a
non-empty language tag, look the lexer up (pygments' `ClassNotFound` is
the spec's `LexerNotFoundError`) and emit the highlighted block —
pygments' `<div class="highlight"><pre>…</pre></div>` wrapper, its
inner span markup abstracted to the escaped code text; with no tag,
emit an escaped plain `<pre><code>…</code></pre>` block. -/
def block_code (code : String) (info : Option String) : Except Err (List Node) :=
  match info with
  | some lang =>
    if knownLanguages.contains lang then
      .ok [Node.elem "div" [("class", "highlight")]
            [Node.elem "pre" [] [Node.text (mistuneEscape code)]]]
    else
      .error (.lexerNotFound lang)
  | none =>
    .ok [Node.elem "pre" [] [Node.elem "code" [] [Node.text (mistuneEscape code)]]]

/-- Language tag of an opening code fence line: the text after the
three backticks, or `none` when blank (mistune passes `info=None`
then). -/
def fenceInfo (l : String) : Option String :=
  let i := String.mk (stripChars (l.data.drop 3))
  if i = "" then none else some i

/-- Paragraph flush: the accumulated plain lines (in reverse) as one
paragraph node, or nothing when no lines are pending. -/
def flushPara (acc : List String) : List Node :=
  match acc with
  | [] => []
  | _ => [Node.elem "p" [] [Node.text (String.intercalate "\n" acc.reverse)]]

/-- Renderer state: between blocks with pending paragraph lines (held
in reverse), or inside a fenced code block with its language tag and
the collected code lines (in reverse). -/
inductive MdState where
  | normal : List String → MdState
  | fence : Option String → List String → MdState

/-- Modelled from the spec: the Markdown engine (external `mistune`
package configured with `HighlightingRenderer`) on the block constructs
the posts use — `#`/`##` headings, paragraphs, thematic breaks and
fenced code blocks, the latter dispatched to `block_code` so that an
unknown language tag fails the whole render. -/
def mdRun (st : MdState) : List String → Except Err (List Node)
  | [] =>
    match st with
    | .normal acc => .ok (flushPara acc)
    | .fence info acc => block_code (String.intercalate "\n" acc.reverse) info
  | l :: ls =>
    match st with
    | .normal acc =>
      if strStarts l "```" then
        match mdRun (.fence (fenceInfo l) []) ls with
        | .ok r => .ok (flushPara acc ++ r)
        | .error e => .error e
      else if strStarts l "## " then
        match mdRun (.normal []) ls with
        | .ok r => .ok (flushPara acc ++ [Node.elem "h2" [] [Node.text (String.mk (stripChars (l.data.drop 3)))]] ++ r)
        | .error e => .error e
      else if strStarts l "# " then
        match mdRun (.normal []) ls with
        | .ok r => .ok (flushPara acc ++ [Node.elem "h1" [] [Node.text (String.mk (stripChars (l.data.drop 2)))]] ++ r)
        | .error e => .error e
      else if pyStrip l = "---" then
        match mdRun (.normal []) ls with
        | .ok r => .ok (flushPara acc ++ [Node.elem "hr" [] []] ++ r)
        | .error e => .error e
      else if pyStrip l = "" then
        match mdRun (.normal []) ls with
        | .ok r => .ok (flushPara acc ++ r)
        | .error e => .error e
      else
        mdRun (.normal (l :: acc)) ls
    | .fence info acc =>
      if strStarts l "```" then
        match block_code (String.intercalate "\n" acc.reverse) info with
        | .ok c =>
          match mdRun (.normal []) ls with
          | .ok r => .ok (c ++ r)
          | .error e => .error e
        | .error e => .error e
      else
        mdRun (.fence info (l :: acc)) ls

/-- Modelled from the spec: `md2html`, the configured Markdown-to-HTML
conversion, as a line-based renderer over the construct subset above,
returning the fragment's top-level nodes. -/
def md2html (md : String) : Except Err (List Node) :=
  mdRun (.normal []) (linesOf md)

/-- Python `str.lower()` on the text (ASCII range). -/
def pyLower (s : String) : String :=
  String.mk (s.data.map Char.toLower)

/-- The substitution `re.sub(r"[^a-z0-9]", " ", ·)` from `Post.get_id`:
every character outside lowercase ASCII letters and digits becomes a
space. -/
def sanitizeTitle (s : String) : String :=
  String.mk (s.data.map fun c =>
    if ('a' ≤ c && c ≤ 'z') || ('0' ≤ c && c ≤ '9') then c else ' ')

/-- Python `s.split()` on a string containing only letters, digits and
spaces: the whitespace-separated words, empties dropped. -/
def titleWords (s : String) : List String :=
  ((splitChar ' ' s.data).map String.mk).filter (· ≠ "")

/-- Zero-padded decimal rendering of width `w`. -/
def padNum (w n : Nat) : String :=
  String.mk (List.replicate (w - (toString n).data.length) '0' ++ (toString n).data)

/-- The timestamp `date.strftime("%Y%m%d")`. -/
def strftimeYmd (d : Date) : String :=
  padNum 4 d.year ++ padNum 2 d.month ++ padNum 2 d.day

/-- State of a constructed `Post`: the resolved date and the three
parsed section soups stored in `self._soups` under the keys `"fr"`,
`"en"` and `"suffix"`. -/
structure PostData where
  date : Date
  fr : List Node
  en : List Node
  suffix : List Node
deriving DecidableEq, Repr

/-- Lookup in the `_soups` dict: the stored soup for a key, or `none`
for a key the dict does not hold. -/
def soupOf (p : PostData) (key : String) : Option (List Node) :=
  if key = "fr" then some p.fr
  else if key = "en" then some p.en
  else if key = "suffix" then some p.suffix
  else none

/-- Body of `Post.get_id` on the stored English soup and date: take the
soup's first `<h1>`, else its first `<h2>` (the `AttributeError` on a
missing heading is the spec's `MissingHeadingError`); lowercase its
text, replace every character outside `[a-z0-9]` by a space, and join
the timestamp with the surviving words by hyphens. -/
def getIdSoup (en : List Node) (date : Date) : Except Err String :=
  let heading :=
    match findTag "h1" en with
    | some h => some h
    | none => findTag "h2" en
  match heading with
  | none => .error .missingHeading
  | some h =>
    .ok (String.intercalate "-"
      (strftimeYmd date :: titleWords (sanitizeTitle (pyLower (getTextNode h)))))

/-- Shallow embedding of `Post.get_id`. -/
def Post.get_id (p : PostData) : Except Err String :=
  getIdSoup p.en p.date

/-- Whether a soup has an `<h1>` or `<h2>` heading, the test
`soup.h1 or soup.h2` of `Post.part`. -/
def hasHeadingB (soup : List Node) : Bool :=
  (findTag "h1" soup).isSome || (findTag "h2" soup).isSome

/-- The self-link anchor built in `Post.part`. -/
def selfLinkNode (pid : String) : Node :=
  Node.elem "a" [("class", "selflink"), ("href", "#" ++ pid)] [Node.text "Λ"]

/-- Decoration of the found heading in `Post.part`: the self-link is
appended inside the heading, the heading is wrapped in a
`div.post-meta`, and a `div` holding the formatted date caption is
appended to the wrapper. -/
def decorateHeading (pid dateStr : String) : Node → Node
  | .elem t a kids =>
    Node.elem "div" [("class", "post-meta")]
      [Node.elem t a (kids ++ [selfLinkNode pid]),
       Node.elem "div" [] [Node.text dateStr]]
  | .text s => .text s

/-- Apply the heading decoration to the first `<h1>` of the soup, else
to its first `<h2>`; a soup with neither is returned unchanged (the
branch `Post.part` never reaches). -/
def decorate (soup : List Node) (pid dateStr : String) : List Node :=
  match mapFirstTag "h1" (decorateHeading pid dateStr) soup with
  | some s => s
  | none =>
    match mapFirstTag "h2" (decorateHeading pid dateStr) soup with
    | some s => s
    | none => soup

/-- Body of `Post.part` applied to a copy of one stored soup: when it
has a heading, decorate it with the self-link (whose target needs
`Post.get_id` on the English soup, so a missing English heading fails
here too) and the localized date caption; otherwise return it
untouched. -/
def partSoup (soup en : List Node) (date : Date) (key : String) : Except Err (List Node) :=
  if hasHeadingB soup then
    match getIdSoup en date with
    | .ok pid => .ok (decorate soup pid (FORMAT_DATE key date))
    | .error e => .error e
  else
    .ok soup

/-- Shallow embedding of `Post.part`: an unknown key yields an empty
soup; otherwise the stored soup is copied and decorated. -/
def Post.part (p : PostData) (key : String) : Except Err (List Node) :=
  match soupOf p key with
  | none => .ok []
  | some soup => partSoup soup p.en p.date key

/-- The article tree `Post.assemble` builds: an `<article>` holding the
anchor `<a id=…>` and the `parts` soup, whose children are the
`div.polyglot` from the initial parse (left empty: the language divs
are appended to the soup, hence become its siblings), the two language
divs each holding their part soup, and — only when its serialization is
non-empty — the suffix part soup. -/
def buildArticle (pid : String) (fr en sf : List Node) : Node :=
  Node.elem "article" []
    [Node.elem "a" [("id", pid)] [],
     docNode
       ([Node.elem "div" [("class", "polyglot")] [],
         Node.elem "div" [("class", "fr")] [docNode fr],
         Node.elem "div" [("class", "en noshow")] [docNode en]]
         ++ (if strNodes sf = "" then [] else [docNode sf]))]

/-- Shallow embedding of `Post.assemble`, with the source's effect
order: part `"fr"`, part `"en"`, part `"suffix"`, then `get_id` for the
anchor. -/
def Post.assemble (p : PostData) : Except Err Node :=
  match Post.part p "fr" with
  | .error e => .error e
  | .ok fr =>
    match Post.part p "en" with
    | .error e => .error e
    | .ok en =>
      match Post.part p "suffix" with
      | .error e => .error e
      | .ok sf =>
        match Post.get_id p with
        | .error e => .error e
        | .ok pid => .ok (buildArticle pid fr en sf)

/-- The section split of `Post.__init__`:
`(markdown.split("---\n") + ["", ""])[:3]` zipped against the keys
`["fr", "en", "suffix"]`. -/
def postSections (body : String) : String × String × String :=
  match (pySplit body "---\n" ++ ["", ""]).take 3 with
  | [a, b, c] => (a, b, c)
  | _ => ("", "", "")

/-- Shallow embedding of `Post.__init__`: extract the date, split the
remaining body into the three sections and render each, failing on the
first section whose render fails, as the list comprehension does. -/
def Post.init (today : Date) (markdown : String) : Except Err PostData :=
  match parse_date today markdown with
  | .error e => .error e
  | .ok r =>
    match md2html (postSections r.rest).1, md2html (postSections r.rest).2.1,
        md2html (postSections r.rest).2.2 with
    | .ok fr, .ok en, .ok sf => .ok ⟨r.date, fr, en, sf⟩
    | .error e, _, _ => .error e
    | .ok _, .error e, _ => .error e
    | .ok _, .ok _, .error e => .error e

/-- Shallow embedding of `insert_post`: find the `<main>` container of
the parsed index document (its absence raises, the spec's
`IndexFormatError`) and insert the post as its first child. -/
def insert_post (index : List Node) (post : Node) : Except Err (List Node) :=
  match mapFirstTag "main"
      (fun n => match n with
        | .elem t a kids => .elem t a (post :: kids)
        | x => x) index with
  | some idx => .ok idx
  | none => .error .indexFormat

/-- Filesystem state `main` touches: the recovery file `backup.md`
(`none` when absent) and the parsed contents of `index.html`. -/
structure FS where
  backup : Option String
  index : List Node
deriving DecidableEq, Repr

/-- Shallow embedding of `main` on an already-read, stripped Markdown
input: write `markdown + "\n"` to the recovery file, build and insert
the post, and delete the recovery file only after a successful
insertion; any error leaves the state as it was right after the backup
write. -/
def mainRun (fs : FS) (today : Date) (markdown : String) : FS × Except Err Unit :=
  let fs1 : FS := ⟨some (markdown ++ "\n"), fs.index⟩
  match (match Post.init today markdown with
         | .ok p => Post.assemble p
         | .error e => .error e) with
  | .error e => (fs1, .error e)
  | .ok soup =>
    match insert_post fs1.index soup with
    | .error e => (fs1, .error e)
    | .ok idx => (⟨none, idx⟩, .ok ())

/-- Heap of BeautifulSoup objects, for making the in-place tree
mutations of `Post.part` explicit: `Post.part` copies the stored soup
(`copy(self._soups[part])`, a deep copy in bs4) and mutates only the
copy.  Soups are addressed by allocation index. -/
structure Heap where
  soups : List (List Node)
deriving DecidableEq, Repr

/-- Contents of the soup object at a reference. -/
def Heap.get (h : Heap) (r : Nat) : List Node :=
  h.soups.getD r []

/-- Allocate a new soup object, returning the extended heap and the
fresh reference. -/
def Heap.alloc (h : Heap) (s : List Node) : Heap × Nat :=
  (⟨h.soups ++ [s]⟩, h.soups.length)

/-- Overwrite the soup object at a reference (an in-place mutation). -/
def Heap.put (h : Heap) (r : Nat) (s : List Node) : Heap :=
  ⟨h.soups.set r s⟩

/-- A `Post` whose `_soups` dict holds references into the heap. -/
structure PostH where
  date : Date
  frRef : Nat
  enRef : Nat
  suffixRef : Nat
deriving DecidableEq, Repr

/-- Reference lookup in the heap-backed `_soups` dict. -/
def refOf (p : PostH) (key : String) : Option Nat :=
  if key = "fr" then some p.frRef
  else if key = "en" then some p.enRef
  else if key = "suffix" then some p.suffixRef
  else none

/-- Heap-passing embedding of `Post.part`: an unknown key returns a
fresh empty soup; otherwise the stored soup is copied into a fresh
object, the decoration mutates that object in place, and its reference
is returned.  The stored sections are only read. -/
def Post.partH (h : Heap) (p : PostH) (key : String) : Except Err (Heap × Nat) :=
  match refOf p key with
  | none => .ok (Heap.alloc h [])
  | some r =>
    match Heap.alloc h (Heap.get h r) with
    | (h1, nr) =>
      match partSoup (Heap.get h1 nr) (Heap.get h1 p.enRef) p.date key with
      | .error e => .error e
      | .ok s => .ok (Heap.put h1 nr s, nr)

/-- Heap-passing embedding of `Post.assemble`: the three `Post.part`
calls in source order, then the identifier for the anchor, the final
article built from the part objects' contents. -/
def Post.assembleH (h : Heap) (p : PostH) : Except Err (Heap × Node) :=
  match Post.partH h p "fr" with
  | .error e => .error e
  | .ok (h1, rf) =>
    match Post.partH h1 p "en" with
    | .error e => .error e
    | .ok (h2, re) =>
      match Post.partH h2 p "suffix" with
      | .error e => .error e
      | .ok (h3, rs) =>
        match getIdSoup (Heap.get h3 p.enRef) p.date with
        | .error e => .error e
        | .ok pid =>
          .ok (h3, buildArticle pid (Heap.get h3 rf) (Heap.get h3 re) (Heap.get h3 rs))

/-! ## Test fixtures used by witnesses -/

/-- Index fixture: an index document holding one empty `<main>`. -/
def fsMain : FS := ⟨none, [Node.elem "main" [] []]⟩

/-- Input fixture: a dated bilingual post with a plain suffix. -/
def mdBilingual : String := "2024-1-15 # Bonjour\n---\n# Hello World\n---\nbye"

/-- The `parse_date` result on `mdBilingual`. -/
def rBilingual : ParseResult :=
  ⟨⟨2024, 1, 15⟩, "# Bonjour\n---\n# Hello World\n---\nbye", 0⟩

/-- The constructed post state on `mdBilingual`. -/
def pBilingual : PostData :=
  ⟨⟨2024, 1, 15⟩,
   [Node.elem "h1" [] [Node.text "Bonjour"]],
   [Node.elem "h1" [] [Node.text "Hello World"]],
   [Node.elem "p" [] [Node.text "bye"]]⟩

/-- Input fixture: a post whose English section has no heading. -/
def mdNoHeading : String := "2024-1-15 # Salut\n---\nno heading"

/-- The constructed post state on `mdNoHeading`. -/
def pNoHeading : PostData :=
  ⟨⟨2024, 1, 15⟩,
   [Node.elem "h1" [] [Node.text "Salut"]],
   [Node.elem "p" [] [Node.text "no heading"]],
   []⟩

/-- Input fixture: a post whose suffix section contains a heading. -/
def mdSuffixHeading : String := "2024-1-15 # Salut\n---\n# Hi\n---\n# Foot"

/-- The constructed post state on `mdSuffixHeading`. -/
def pSuffixHeading : PostData :=
  ⟨⟨2024, 1, 15⟩,
   [Node.elem "h1" [] [Node.text "Salut"]],
   [Node.elem "h1" [] [Node.text "Hi"]],
   [Node.elem "h1" [] [Node.text "Foot"]]⟩

/-- Heap fixture: the three stored section soups of the bilingual
fixture, at references 0, 1 and 2. -/
def heapFix : Heap :=
  ⟨[[Node.elem "h1" [] [Node.text "Bonjour"]],
    [Node.elem "h1" [] [Node.text "Hello World"]],
    [Node.elem "p" [] [Node.text "bye"]]]⟩

/-- Heap-backed post fixture referring into `heapFix`. -/
def pHFix : PostH := ⟨⟨2024, 1, 15⟩, 0, 1, 2⟩

/-- The decorated French soup `Post.part` produces on the bilingual
fixture. -/
def frDecorated : List Node :=
  [Node.elem "div" [("class", "post-meta")]
    [Node.elem "h1" [] [Node.text "Bonjour", selfLinkNode "20240115-hello-world"],
     Node.elem "div" [] [Node.text "Lundi, 15 janvier 2024"]]]

/-! ## Shared helper lemmas -/

/-- Digits are not Python whitespace. -/
theorem digit_not_pyWs {c : Char} (h : c.isDigit = true) : pyWs c = false := by
  cases hpw : pyWs c
  · rfl
  · exfalso
    simp only [pyWs, Bool.or_eq_true, decide_eq_true_eq] at hpw
    rcases hpw with ((((h1 | h1) | h1) | h1) | h1) | h1 <;> subst h1 <;>
      exact absurd h (by decide)

/-! ## C9: localized date formatting -/

/-- C9: formatting 2024-01-15 with `"fr"` yields the French long form
with capitalized Monday-first weekday and unpadded day, with `"en"` the
English long form, likewise for a second fixed date, and every other
language code — `"suffix"` included — yields the empty string. -/
theorem format_date_localized :
    FORMAT_DATE "fr" ⟨2024, 1, 15⟩ = "Lundi, 15 janvier 2024"
    ∧ FORMAT_DATE "en" ⟨2024, 1, 15⟩ = "Monday, January 15, 2024"
    ∧ FORMAT_DATE "fr" ⟨2023, 12, 31⟩ = "Dimanche, 31 décembre 2023"
    ∧ FORMAT_DATE "en" ⟨2023, 12, 31⟩ = "Sunday, December 31, 2023"
    ∧ ∀ (code : String) (d : Date), code ≠ "fr" → code ≠ "en" → FORMAT_DATE code d = "" := by
  refine ⟨by decide, by decide, by decide, by decide, ?_⟩
  intro code d h1 h2
  unfold FORMAT_DATE
  rw [if_neg h1, if_neg h2]

/-- Witness for C9 at the internal `"suffix"` key. -/
theorem format_date_localized_witness :
    (("suffix" : String) ≠ "fr" ∧ ("suffix" : String) ≠ "en")
    ∧ FORMAT_DATE "suffix" ⟨2024, 1, 15⟩ = "" :=
  ⟨⟨by decide, by decide⟩,
   format_date_localized.2.2.2.2 "suffix" ⟨2024, 1, 15⟩ (by decide) (by decide)⟩

/-! ## C3: invalid calendar values in a date-shaped prefix are fatal -/

/-- C3: when the date regex matches the stripped input but the values do
not form a valid calendar date, `parse_date` fails with the
`DateParseError`, and the whole run aborts with the index untouched and
the recovery file retained. -/
theorem parse_date_invalid_fatal :
    ∀ (today : Date) (md : String) (y m d e : Nat),
      matchDate (stripChars md.data) = some (y, m, d, e) →
      validDate y m d = false →
      parse_date today md = .error .dateParse
      ∧ ∀ fs : FS, mainRun fs today md = (⟨some (md ++ "\n"), fs.index⟩, .error .dateParse) := by
  intro today md y m d e hm hv
  have hp : parse_date today md = .error .dateParse := by
    unfold parse_date
    rw [hm]
    simp [hv]
  have hinit : Post.init today md = .error .dateParse := by
    unfold Post.init
    rw [hp]
  refine ⟨hp, ?_⟩
  intro fs
  simp [mainRun, hinit]

/-- Witness for C3 at the month-13 input the spec names. -/
theorem parse_date_invalid_fatal_witness :
    matchDate (stripChars ("2024-13-1 x" : String).data) = some (2024, 13, 1, 9)
    ∧ validDate 2024 13 1 = false
    ∧ parse_date ⟨2020, 1, 1⟩ "2024-13-1 x" = .error .dateParse
    ∧ mainRun fsMain ⟨2020, 1, 1⟩ "2024-13-1 x"
        = (⟨some ("2024-13-1 x" ++ "\n"), fsMain.index⟩, .error .dateParse) :=
  ⟨by decide, by decide,
   (parse_date_invalid_fatal ⟨2020, 1, 1⟩ "2024-13-1 x" 2024 13 1 9 (by decide) (by decide)).1,
   (parse_date_invalid_fatal ⟨2020, 1, 1⟩ "2024-13-1 x" 2024 13 1 9 (by decide) (by decide)).2 fsMain⟩

/-! ## C4: no date token — warned fallback to today -/

/-- Counterexample for C4 as stated: on the no-date input `" hello "`
the extractor returns the input untrimmed, not trimmed of surrounding
whitespace as the claim asserts. -/
theorem parse_date_nomatch_counterexample :
    parse_date ⟨2020, 1, 1⟩ " hello " = .ok ⟨⟨2020, 1, 1⟩, " hello ", 1⟩
    ∧ pyStrip " hello " = "hello"
    ∧ (" hello " : String) ≠ "hello" :=
  ⟨by decide, by decide, by decide⟩

/-- C4 as amended: on any input the date regex does not match (after
stripping), `parse_date` warns exactly once, defaults the date to
`today`, and returns the input text unchanged — not trimmed. -/
theorem parse_date_nomatch :
    ∀ (today : Date) (md : String),
      matchDate (stripChars md.data) = none →
      parse_date today md = .ok ⟨today, md, 1⟩ := by
  intro today md h
  unfold parse_date
  rw [h]

/-- Witness for the amended C4 at `" hello "`. -/
theorem parse_date_nomatch_witness :
    matchDate (stripChars (" hello " : String).data) = none
    ∧ parse_date ⟨2020, 1, 1⟩ " hello " = .ok ⟨⟨2020, 1, 1⟩, " hello ", 1⟩ :=
  ⟨by decide, parse_date_nomatch ⟨2020, 1, 1⟩ " hello " (by decide)⟩

/-! ## C1: failures abort before any index mutation, backup retained -/

/-- C1: whenever the pipeline run ends in an error — any assembly or
insertion failure — the index contents are exactly the initial ones and
the recovery file still holds the raw input (with the normalized
trailing newline). -/
theorem mainRun_failure_preserves :
    ∀ (fs : FS) (today : Date) (md : String) (e : Err),
      (mainRun fs today md).2 = .error e →
      (mainRun fs today md).1.index = fs.index
      ∧ (mainRun fs today md).1.backup = some (md ++ "\n") := by
  intro fs today md e h
  unfold mainRun at h ⊢
  cases hpi : (match Post.init today md with
               | .ok p => Post.assemble p
               | .error err => Except.error err) with
  | error err => simp [hpi]
  | ok soup =>
    cases hins : insert_post fs.index soup with
    | error err => simp [hpi, hins]
    | ok idx => simp [hpi, hins] at h

/-- Witness for C1: the unknown code-fence language `nonexistentlang`
fails the run, leaving the index untouched and the backup in place. -/
theorem mainRun_failure_preserves_witness :
    (mainRun fsMain ⟨2020, 1, 1⟩ "```nonexistentlang\nc\n```").2
        = .error (.lexerNotFound "nonexistentlang")
    ∧ (mainRun fsMain ⟨2020, 1, 1⟩ "```nonexistentlang\nc\n```").1.index = fsMain.index
    ∧ (mainRun fsMain ⟨2020, 1, 1⟩ "```nonexistentlang\nc\n```").1.backup
        = some ("```nonexistentlang\nc\n```" ++ "\n") :=
  ⟨by decide,
   (mainRun_failure_preserves fsMain ⟨2020, 1, 1⟩ "```nonexistentlang\nc\n```"
     (.lexerNotFound "nonexistentlang") (by decide)).1,
   (mainRun_failure_preserves fsMain ⟨2020, 1, 1⟩ "```nonexistentlang\nc\n```"
     (.lexerNotFound "nonexistentlang") (by decide)).2⟩

/-! ## C5: first three separator-delimited blocks become the sections -/

/-- C5: the section constructor takes exactly the first three blocks of
the `---`-newline split, in order primary, secondary, suffix, discards
any further block, defaults missing blocks to the empty string, and
`Post.__init__` stores precisely the renderings of those three
sections. -/
theorem postSections_first_three :
    (∀ body : String,
      postSections body =
        ((pySplit body "---\n").getD 0 "", (pySplit body "---\n").getD 1 "",
         (pySplit body "---\n").getD 2 ""))
    ∧ ∀ (today : Date) (md : String) (r : ParseResult) (p : PostData),
        parse_date today md = .ok r →
        Post.init today md = .ok p →
        md2html (postSections r.rest).1 = .ok p.fr
        ∧ md2html (postSections r.rest).2.1 = .ok p.en
        ∧ md2html (postSections r.rest).2.2 = .ok p.suffix := by
  constructor
  · intro body
    unfold postSections
    generalize pySplit body "---\n" = l
    rcases l with _ | ⟨a, _ | ⟨b, _ | ⟨c, t⟩⟩⟩ <;> simp [List.getD]
  · intro today md r p hpd hinit
    unfold Post.init at hinit
    simp only [hpd] at hinit
    cases h1 : md2html (postSections r.rest).1 with
    | error e => rw [h1] at hinit; simp at hinit
    | ok fr =>
      cases h2 : md2html (postSections r.rest).2.1 with
      | error e => rw [h1, h2] at hinit; simp at hinit
      | ok en =>
        cases h3 : md2html (postSections r.rest).2.2 with
        | error e => rw [h1, h2, h3] at hinit; simp at hinit
        | ok sf =>
          rw [h1, h2, h3] at hinit
          simp at hinit
          rw [← hinit]
          exact ⟨rfl, rfl, rfl⟩

/-- Witness for C5 on the bilingual fixture. -/
theorem postSections_first_three_witness :
    parse_date ⟨2020, 1, 1⟩ mdBilingual = .ok rBilingual
    ∧ Post.init ⟨2020, 1, 1⟩ mdBilingual = .ok pBilingual
    ∧ (md2html (postSections rBilingual.rest).1 = .ok pBilingual.fr
       ∧ md2html (postSections rBilingual.rest).2.1 = .ok pBilingual.en
       ∧ md2html (postSections rBilingual.rest).2.2 = .ok pBilingual.suffix) :=
  ⟨by decide, by decide,
   postSections_first_three.2 ⟨2020, 1, 1⟩ mdBilingual rBilingual pBilingual
     (by decide) (by decide)⟩

/-! ## C6: missing English heading is fatal -/

/-- C6: when the rendered English section has neither an `<h1>` nor an
`<h2>`, identifier derivation fails with the `MissingHeadingError`,
assembly fails with the same error, and a run on an input constructing
such a post aborts with the index untouched and the recovery file
retained. -/
theorem get_id_missing_heading :
    ∀ p : PostData,
      findTag "h1" p.en = none →
      findTag "h2" p.en = none →
      Post.get_id p = .error .missingHeading
      ∧ Post.assemble p = .error .missingHeading
      ∧ ∀ (fs : FS) (today : Date) (md : String),
          Post.init today md = .ok p →
          mainRun fs today md = (⟨some (md ++ "\n"), fs.index⟩, .error .missingHeading) := by
  intro p h1 h2
  have hids : getIdSoup p.en p.date = .error .missingHeading := by
    unfold getIdSoup
    rw [h1, h2]
  have hid : Post.get_id p = .error .missingHeading := hids
  have hen : hasHeadingB p.en = false := by
    simp [hasHeadingB, h1, h2]
  have hpart : ∀ (key : String) (soup : List Node),
      partSoup soup p.en p.date key =
        if hasHeadingB soup then .error .missingHeading else .ok soup := by
    intro key soup
    unfold partSoup
    rw [hids]
  have hfr : Post.part p "fr" =
      if hasHeadingB p.fr then .error .missingHeading else .ok p.fr := by
    unfold Post.part
    simp only [show soupOf p "fr" = some p.fr from by simp [soupOf]]
    exact hpart "fr" p.fr
  have hpen : Post.part p "en" = .ok p.en := by
    unfold Post.part
    simp only [show soupOf p "en" = some p.en from by simp [soupOf]]
    rw [hpart, hen]
    simp
  have hsf : Post.part p "suffix" =
      if hasHeadingB p.suffix then .error .missingHeading else .ok p.suffix := by
    unfold Post.part
    simp only [show soupOf p "suffix" = some p.suffix from by simp [soupOf]]
    exact hpart "suffix" p.suffix
  have hassemble : Post.assemble p = .error .missingHeading := by
    unfold Post.assemble
    cases hhf : hasHeadingB p.fr with
    | true => simp only [hfr, hhf, if_pos]
    | false =>
      simp only [hfr, hhf, Bool.false_eq_true, if_neg, hpen, hsf]
      cases hhs : hasHeadingB p.suffix <;> simp [hid]
  refine ⟨hid, hassemble, ?_⟩
  intro fs today md hini
  simp [mainRun, hini, hassemble]

/-- Witness for C6 on the fixture whose English section is a plain
paragraph. -/
theorem get_id_missing_heading_witness :
    findTag "h1" pNoHeading.en = none
    ∧ findTag "h2" pNoHeading.en = none
    ∧ Post.get_id pNoHeading = .error .missingHeading
    ∧ Post.assemble pNoHeading = .error .missingHeading
    ∧ Post.init ⟨2020, 1, 1⟩ mdNoHeading = .ok pNoHeading
    ∧ mainRun fsMain ⟨2020, 1, 1⟩ mdNoHeading
        = (⟨some (mdNoHeading ++ "\n"), fsMain.index⟩, .error .missingHeading) :=
  ⟨by decide, by decide,
   (get_id_missing_heading pNoHeading (by decide) (by decide)).1,
   (get_id_missing_heading pNoHeading (by decide) (by decide)).2.1,
   by decide,
   (get_id_missing_heading pNoHeading (by decide) (by decide)).2.2 fsMain ⟨2020, 1, 1⟩
     mdNoHeading (by decide)⟩

/-! ## C7: assembled fragment structure and anchor -/

/-- C7: for a post with both language sections present (and the English
heading the identifier needs), assembly succeeds and the fragment holds,
in order, the primary-language sub-container `div.fr` (visible), the
secondary-language sub-container `div.en.noshow` (hidden by the class
flag), and zero or one suffix container — present exactly when the
rendered suffix is non-empty — all wrapped in an `<article>` carrying an
anchor whose `id` is the derived post identifier. -/
theorem assemble_structure :
    ∀ p : PostData,
      p.fr ≠ [] →
      p.en ≠ [] →
      hasHeadingB p.en = true →
      ∃ (pid : String) (fr en sf : List Node),
        Post.get_id p = .ok pid
        ∧ Post.part p "fr" = .ok fr
        ∧ Post.part p "en" = .ok en
        ∧ Post.part p "suffix" = .ok sf
        ∧ Post.assemble p = .ok (Node.elem "article" []
            [Node.elem "a" [("id", pid)] [],
             docNode
               ([Node.elem "div" [("class", "polyglot")] [],
                 Node.elem "div" [("class", "fr")] [docNode fr],
                 Node.elem "div" [("class", "en noshow")] [docNode en]]
                 ++ (if strNodes sf = "" then [] else [docNode sf]))]) := by
  intro p hfrne henne hhead
  have hex : ∃ pid, getIdSoup p.en p.date = .ok pid := by
    unfold getIdSoup
    cases hf1 : findTag "h1" p.en with
    | some h => exact ⟨_, rfl⟩
    | none =>
      unfold hasHeadingB at hhead
      rw [hf1] at hhead
      simp only [Option.isSome_none, Bool.false_or] at hhead
      cases hf2 : findTag "h2" p.en with
      | some h => exact ⟨_, rfl⟩
      | none => rw [hf2] at hhead; simp at hhead
  obtain ⟨pid, hpid⟩ := hex
  have hgid : Post.get_id p = .ok pid := hpid
  have hpartOk : ∀ (key : String) (soup : List Node),
      partSoup soup p.en p.date key =
        .ok (if hasHeadingB soup then decorate soup pid (FORMAT_DATE key p.date) else soup) := by
    intro key soup
    unfold partSoup
    rw [hpid]
    cases hasHeadingB soup <;> simp
  have hfr : Post.part p "fr" =
      .ok (if hasHeadingB p.fr then decorate p.fr pid (FORMAT_DATE "fr" p.date) else p.fr) := by
    unfold Post.part
    simp only [show soupOf p "fr" = some p.fr from by simp [soupOf]]
    exact hpartOk "fr" p.fr
  have hen : Post.part p "en" =
      .ok (if hasHeadingB p.en then decorate p.en pid (FORMAT_DATE "en" p.date) else p.en) := by
    unfold Post.part
    simp only [show soupOf p "en" = some p.en from by simp [soupOf]]
    exact hpartOk "en" p.en
  have hsf : Post.part p "suffix" =
      .ok (if hasHeadingB p.suffix then decorate p.suffix pid (FORMAT_DATE "suffix" p.date)
           else p.suffix) := by
    unfold Post.part
    simp only [show soupOf p "suffix" = some p.suffix from by simp [soupOf]]
    exact hpartOk "suffix" p.suffix
  refine ⟨pid, _, _, _, hgid, hfr, hen, hsf, ?_⟩
  unfold Post.assemble
  simp only [hfr, hen, hsf, hgid]
  rfl

/-- Witness for C7 on the bilingual fixture. -/
theorem assemble_structure_witness :
    (pBilingual.fr ≠ [] ∧ pBilingual.en ≠ [] ∧ hasHeadingB pBilingual.en = true)
    ∧ ∃ (pid : String) (fr en sf : List Node),
        Post.get_id pBilingual = .ok pid
        ∧ Post.part pBilingual "fr" = .ok fr
        ∧ Post.part pBilingual "en" = .ok en
        ∧ Post.part pBilingual "suffix" = .ok sf
        ∧ Post.assemble pBilingual = .ok (Node.elem "article" []
            [Node.elem "a" [("id", pid)] [],
             docNode
               ([Node.elem "div" [("class", "polyglot")] [],
                 Node.elem "div" [("class", "fr")] [docNode fr],
                 Node.elem "div" [("class", "en noshow")] [docNode en]]
                 ++ (if strNodes sf = "" then [] else [docNode sf]))]) :=
  ⟨⟨by decide, by decide, by decide⟩,
   assemble_structure pBilingual (by decide) (by decide) (by decide)⟩

/-! ## C8: suffix rendering and omission -/

/-- Counterexample for C8 as stated: on a post whose suffix contains a
heading, `Post.part` does wrap that heading in the `post-meta` metadata
container and does append the self-link anchor, so the suffix is not
free of heading decoration. -/
theorem part_suffix_decorated_counterexample :
    Post.init ⟨2020, 1, 1⟩ mdSuffixHeading = .ok pSuffixHeading
    ∧ Post.part pSuffixHeading "suffix"
        = .ok [Node.elem "div" [("class", "post-meta")]
            [Node.elem "h1" [] [Node.text "Foot", selfLinkNode "20240115-hi"],
             Node.elem "div" [] [Node.text ""]]]
    ∧ Post.part pSuffixHeading "suffix" ≠ .ok pSuffixHeading.suffix :=
  ⟨by decide, by decide, by decide⟩

/-- C8 as amended: the suffix's date caption is always the empty string;
a suffix containing no heading is emitted with no decoration at all; and
a suffix whose rendering serializes to the empty string is omitted
entirely from the assembled fragment, no trailing container emitted —
but a heading occurring in the suffix does receive the metadata wrapper
and self-link, like the language sections. -/
theorem part_suffix_amended :
    ∀ p : PostData,
      (∀ d : Date, FORMAT_DATE "suffix" d = "")
      ∧ (hasHeadingB p.suffix = false → Post.part p "suffix" = .ok p.suffix)
      ∧ (∀ (pid : String) (fr en sf : List Node), strNodes sf = "" →
          buildArticle pid fr en sf = Node.elem "article" []
            [Node.elem "a" [("id", pid)] [],
             docNode
               [Node.elem "div" [("class", "polyglot")] [],
                Node.elem "div" [("class", "fr")] [docNode fr],
                Node.elem "div" [("class", "en noshow")] [docNode en]]]) := by
  intro p
  refine ⟨fun d => rfl, ?_, ?_⟩
  · intro hno
    unfold Post.part
    simp only [show soupOf p "suffix" = some p.suffix from by simp [soupOf]]
    unfold partSoup
    simp [hno]
  · intro pid fr en sf hsf
    unfold buildArticle
    rw [hsf]
    simp

/-- Witness for the amended C8: the bilingual fixture's plain suffix is
passed through undecorated, and an empty-serializing suffix leaves no
trailing container in the article. -/
theorem part_suffix_amended_witness :
    hasHeadingB pBilingual.suffix = false
    ∧ Post.part pBilingual "suffix" = .ok pBilingual.suffix
    ∧ FORMAT_DATE "suffix" ⟨2024, 1, 15⟩ = ""
    ∧ strNodes ([] : List Node) = ""
    ∧ buildArticle "t" [] [] [] = Node.elem "article" []
        [Node.elem "a" [("id", "t")] [],
         docNode
           [Node.elem "div" [("class", "polyglot")] [],
            Node.elem "div" [("class", "fr")] [docNode []],
            Node.elem "div" [("class", "en noshow")] [docNode []]]] :=
  ⟨by decide,
   (part_suffix_amended pBilingual).2.1 (by decide),
   (part_suffix_amended pBilingual).1 ⟨2024, 1, 15⟩,
   by decide,
   (part_suffix_amended pBilingual).2.2 "t" [] [] [] (by decide)⟩

/-! ## C2: exact date extraction on valid date-prefixed inputs -/

/-- A character list headed by a digit loses nothing to leading-space
stripping. -/
theorem dropWhile_cons_digit (a : Char) (l : List Char) (h : a.isDigit = true) :
    (a :: l).dropWhile pyWs = a :: l := by
  simp [List.dropWhile_cons, digit_not_pyWs h]

/-- Right-stripping a list that continues after a non-whitespace
character only strips inside the continuation. -/
theorem rstrip_append_concat (A B : List Char) (c : Char) (hc : pyWs c = false) :
    rstripChars ((A ++ [c]) ++ B) = (A ++ [c]) ++ rstripChars B := by
  unfold rstripChars List.rdropWhile
  rw [List.reverse_append, List.reverse_append, List.reverse_singleton, List.singleton_append,
    List.dropWhile_append]
  cases hB : (B.reverse.dropWhile pyWs).isEmpty with
  | true =>
    have hBnil : B.reverse.dropWhile pyWs = [] := by
      cases hBB : B.reverse.dropWhile pyWs with
      | nil => rfl
      | cons x xs => rw [hBB] at hB; simp at hB
    simp only [hB, if_pos]
    rw [List.dropWhile_cons, if_neg (by simp [hc]), hBnil]
    simp
  | false =>
    simp only [hB, Bool.false_eq_true, if_false]
    simp [List.reverse_append, List.reverse_cons, List.reverse_reverse, List.append_assoc]

/-- The head of a prefix is the head of the whole list. -/
theorem head_agrees_with_longer {l₁ l₂ : List Char} (h : l₁ <+: l₂) {x : Char}
    (hx : l₁.head? = some x) : l₂.head? = some x := by
  obtain ⟨t, rfl⟩ := h
  cases l₁ with
  | nil => simp at hx
  | cons y ys => simp at hx ⊢; exact hx

/-- The date regex on a well-formed token followed by a non-extending
continuation: it matches exactly the token, with the groups' values and
the token's length. -/
theorem matchDate_token (a b c d : Char) (ms ds R : List Char)
    (ha : a.isDigit = true) (hb : b.isDigit = true)
    (hc : c.isDigit = true) (hd : d.isDigit = true)
    (hm : ms.length = 1 ∨ ms.length = 2) (hmd : ∀ x ∈ ms, x.isDigit = true)
    (hds : ds.length = 1 ∨ ds.length = 2) (hdd : ∀ x ∈ ds, x.isDigit = true)
    (hguard : ds.length = 2 ∨ ∀ x, R.head? = some x → x.isDigit = false) :
    matchDate (a :: b :: c :: d :: '-' :: (ms ++ '-' :: (ds ++ R)))
      = some (digitsToNat [a, b, c, d], digitsToNat ms, digitsToNat ds,
              6 + ms.length + ds.length) := by
  have hdashNotDigit : ('-' : Char).isDigit = false := by decide
  rcases hm with hm1 | hm2
  · obtain ⟨m1, rfl⟩ := List.length_eq_one.mp hm1
    have hm1d : m1.isDigit = true := hmd m1 (by simp)
    rcases hds with hds1 | hds2
    · obtain ⟨d1, rfl⟩ := List.length_eq_one.mp hds1
      have hd1d : d1.isDigit = true := hdd d1 (by simp)
      have hg : ∀ x, R.head? = some x → x.isDigit = false := by
        rcases hguard with h2 | hg
        · simp at h2
        · exact hg
      have hmm : matchMonth (m1 :: '-' :: d1 :: R) = some (dv m1, 2, d1 :: R) := by
        simp [matchMonth, hm1d, hdashNotDigit]
      have hdd2 : matchDay (d1 :: R) = some (dv d1, 1) := by
        cases R with
        | nil => simp [matchDay, hd1d]
        | cons r R2 =>
          have hr : r.isDigit = false := hg r (by simp)
          simp [matchDay, hd1d, hr]
      simp [matchDate, ha, hb, hc, hd, hmm, hdd2, digitsToNat, dv]
    · obtain ⟨d1, d2, rfl⟩ := List.length_eq_two.mp hds2
      have hd1d : d1.isDigit = true := hdd d1 (by simp)
      have hd2d : d2.isDigit = true := hdd d2 (by simp)
      have hmm : matchMonth (m1 :: '-' :: d1 :: d2 :: R) = some (dv m1, 2, d1 :: d2 :: R) := by
        simp [matchMonth, hm1d, hdashNotDigit]
      have hdd2 : matchDay (d1 :: d2 :: R) = some (10 * dv d1 + dv d2, 2) := by
        simp [matchDay, hd1d, hd2d]
      simp [matchDate, ha, hb, hc, hd, hmm, hdd2, digitsToNat, dv]
  · obtain ⟨m1, m2, rfl⟩ := List.length_eq_two.mp hm2
    have hm1d : m1.isDigit = true := hmd m1 (by simp)
    have hm2d : m2.isDigit = true := hmd m2 (by simp)
    rcases hds with hds1 | hds2
    · obtain ⟨d1, rfl⟩ := List.length_eq_one.mp hds1
      have hd1d : d1.isDigit = true := hdd d1 (by simp)
      have hg : ∀ x, R.head? = some x → x.isDigit = false := by
        rcases hguard with h2 | hg
        · simp at h2
        · exact hg
      have hmm : matchMonth (m1 :: m2 :: '-' :: d1 :: R)
          = some (10 * dv m1 + dv m2, 3, d1 :: R) := by
        simp [matchMonth, hm1d, hm2d]
      have hdd2 : matchDay (d1 :: R) = some (dv d1, 1) := by
        cases R with
        | nil => simp [matchDay, hd1d]
        | cons r R2 =>
          have hr : r.isDigit = false := hg r (by simp)
          simp [matchDay, hd1d, hr]
      simp [matchDate, ha, hb, hc, hd, hmm, hdd2, digitsToNat, dv]
    · obtain ⟨d1, d2, rfl⟩ := List.length_eq_two.mp hds2
      have hd1d : d1.isDigit = true := hdd d1 (by simp)
      have hd2d : d2.isDigit = true := hdd d2 (by simp)
      have hmm : matchMonth (m1 :: m2 :: '-' :: d1 :: d2 :: R)
          = some (10 * dv m1 + dv m2, 3, d1 :: d2 :: R) := by
        simp [matchMonth, hm1d, hm2d]
      have hdd2 : matchDay (d1 :: d2 :: R) = some (10 * dv d1 + dv d2, 2) := by
        simp [matchDay, hd1d, hd2d]
      simp [matchDate, ha, hb, hc, hd, hmm, hdd2, digitsToNat, dv]

/-- Right-stripping distributes over a continuation placed after a
non-empty block of digits. -/
theorem rstrip_append_digits (A ds B : List Char) (hne : ds ≠ [])
    (hdd : ∀ x ∈ ds, x.isDigit = true) :
    rstripChars ((A ++ ds) ++ B) = (A ++ ds) ++ rstripChars B := by
  rcases List.eq_nil_or_concat ds with rfl | ⟨L, c, rfl⟩
  · exact absurd rfl hne
  · have hcd : c.isDigit = true := hdd c (by simp)
    have h1 := rstrip_append_concat (A ++ L) B c (digit_not_pyWs hcd)
    simp only [List.concat_eq_append, List.append_assoc] at h1 ⊢
    exact h1

/-- Counterexample for C2 as stated: on the input `" 2024-1-5 text"`,
whose trimmed text begins with the valid date token `2024-1-5`, the
extractor consumes the match offset on the unstripped input and returns
the remainder `"5 text"` instead of `"text"`. -/
theorem parse_date_rest_counterexample :
    parse_date ⟨2020, 1, 1⟩ " 2024-1-5 text" = .ok ⟨⟨2024, 1, 5⟩, "5 text", 0⟩
    ∧ ("5 text" : String) ≠ "text" :=
  ⟨by decide, by decide⟩

/-- C2 as amended: for every input that carries no leading whitespace
and starts with a well-formed `YYYY-M-D` token naming a valid calendar
date — the token not extendable by a digit of the continuation —
`parse_date` returns exactly that date together with the input minus
the consumed token, trimmed of surrounding whitespace, and no
warning. -/
theorem parse_date_valid_token (today : Date) (ys ms ds tail : List Char)
    (hy : ys.length = 4) (hyd : ∀ x ∈ ys, x.isDigit = true)
    (hm : ms.length = 1 ∨ ms.length = 2) (hmd : ∀ x ∈ ms, x.isDigit = true)
    (hds : ds.length = 1 ∨ ds.length = 2) (hdd : ∀ x ∈ ds, x.isDigit = true)
    (hguard : ds.length = 2 ∨ ∀ x, tail.head? = some x → x.isDigit = false)
    (hvalid : validDate (digitsToNat ys) (digitsToNat ms) (digitsToNat ds) = true) :
    parse_date today (String.mk (ys ++ '-' :: (ms ++ '-' :: (ds ++ tail))))
      = .ok ⟨⟨digitsToNat ys, digitsToNat ms, digitsToNat ds⟩, String.mk (stripChars tail), 0⟩ := by
  rcases ys with _ | ⟨a, _ | ⟨b, _ | ⟨c, _ | ⟨d, rest⟩⟩⟩⟩ <;> simp only [List.length_cons,
    List.length_nil] at hy
  · omega
  · omega
  · omega
  · omega
  have hrest : rest = [] := by
    have h0 : rest.length = 0 := by omega
    exact List.length_eq_zero.mp h0
  subst hrest
  have ha : a.isDigit = true := hyd a (by simp)
  have hb : b.isDigit = true := hyd b (by simp)
  have hcc : c.isDigit = true := hyd c (by simp)
  have hdc : d.isDigit = true := hyd d (by simp)
  have hdsne : ds ≠ [] := by
    rcases hds with h | h <;> (intro hnil; rw [hnil] at h; simp at h)
  simp only [List.cons_append, List.nil_append]
  set L : List Char := a :: b :: c :: d :: '-' :: (ms ++ '-' :: (ds ++ tail)) with hLdef
  have hL : L = ((a :: b :: c :: d :: '-' :: (ms ++ ['-'])) ++ ds) ++ tail := by
    simp [hLdef, List.append_assoc]
  have hstrip : stripChars L
      = a :: b :: c :: d :: '-' :: (ms ++ '-' :: (ds ++ rstripChars tail)) := by
    unfold stripChars
    rw [show L.dropWhile pyWs = L from dropWhile_cons_digit a _ ha, hL,
      rstrip_append_digits _ ds tail hdsne hdd]
    simp [List.append_assoc]
  have hg2 : ds.length = 2 ∨ ∀ x, (rstripChars tail).head? = some x → x.isDigit = false := by
    rcases hguard with h | h
    · exact Or.inl h
    · refine Or.inr fun x hx => h x ?_
      have hpre := List.rdropWhile_prefix pyWs tail
      exact head_agrees_with_longer hpre hx
  have hmatch : matchDate (stripChars L)
      = some (digitsToNat [a, b, c, d], digitsToNat ms, digitsToNat ds,
              6 + ms.length + ds.length) := by
    rw [hstrip]
    exact matchDate_token a b c d ms ds (rstripChars tail) ha hb hcc hdc hm hmd hds hdd hg2
  have hdrop : L.drop (6 + ms.length + ds.length) = tail := by
    rw [hL]
    apply List.drop_left'
    simp [List.length_append, List.length_cons]
    omega
  have hrest2 : pyStrip (dropChars (String.mk L) (6 + ms.length + ds.length))
      = String.mk (stripChars tail) := by
    simp only [pyStrip, dropChars, hdrop]
  simp only [parse_date, hmatch, hvalid, if_true, hrest2]

/-- Witness for the amended C2: the token `2024-1-15` followed by
whitespace-padded text is consumed exactly, and the remainder comes
back trimmed. -/
theorem parse_date_valid_token_witness :
    validDate (digitsToNat ['2', '0', '2', '4']) (digitsToNat ['1']) (digitsToNat ['1', '5']) = true
    ∧ parse_date ⟨2020, 1, 1⟩ "2024-1-15  hello " = .ok ⟨⟨2024, 1, 15⟩, "hello", 0⟩ :=
  ⟨by decide, by
    have h := parse_date_valid_token ⟨2020, 1, 1⟩ ['2', '0', '2', '4'] ['1'] ['1', '5']
      (' ' :: ' ' :: 'h' :: 'e' :: 'l' :: 'l' :: 'o' :: [' ']) (by decide) (by decide)
      (by decide) (by decide) (by decide) (by decide) (by decide) (by decide)
    exact h⟩

/-! ## C10: decoration works on copies, stored sections never change -/

/-- Reading below the old length after an allocation sees the old
contents. -/
theorem heap_get_append_lt (h : Heap) (x : List Node) (i : Nat) (hi : i < h.soups.length) :
    Heap.get ⟨h.soups ++ [x]⟩ i = Heap.get h i := by
  simp only [Heap.get]
  exact List.getD_append _ _ _ _ hi

/-- Reading the freshly allocated cell sees the allocated value. -/
theorem heap_get_append_self (h : Heap) (x : List Node) :
    Heap.get ⟨h.soups ++ [x]⟩ h.soups.length = x := by
  simp only [Heap.get]
  rw [List.getD_append_right _ _ _ _ (Nat.le_refl _)]
  simp

/-- Overwriting the freshly allocated cell replaces just it. -/
theorem heap_put_append (h : Heap) (x y : List Node) :
    Heap.put ⟨h.soups ++ [x]⟩ h.soups.length y = ⟨h.soups ++ [y]⟩ := by
  simp only [Heap.put]
  rw [List.set_append_right _ _ (Nat.le_refl _)]
  simp

/-- Heap-level `Post.part` on a stored key: copy the stored soup into a
fresh cell, decorate there, leaving every pre-existing cell as it
was. -/
theorem partH_char (h : Heap) (p : PostH) (key : String) (ref : Nat)
    (hr : refOf p key = some ref) (href : ref < h.soups.length)
    (hen : p.enRef < h.soups.length) :
    Post.partH h p key =
      match partSoup (Heap.get h ref) (Heap.get h p.enRef) p.date key with
      | .error e => .error e
      | .ok s => .ok (⟨h.soups ++ [s]⟩, h.soups.length) := by
  unfold Post.partH
  rw [hr]
  simp only [Heap.alloc]
  rw [heap_get_append_self, heap_get_append_lt h _ _ hen]
  cases hps : partSoup (Heap.get h ref) (Heap.get h p.enRef) p.date key with
  | error e => rfl
  | ok s =>
    dsimp only
    rw [heap_put_append]

/-- Heap-level `Post.part` on an unknown key: a fresh empty soup. -/
theorem partH_none_char (h : Heap) (p : PostH) (key : String)
    (hr : refOf p key = none) :
    Post.partH h p key = .ok (⟨h.soups ++ [[]]⟩, h.soups.length) := by
  unfold Post.partH
  rw [hr]
  rfl

/-- Frame property of heap-level `Post.part`: the three stored sections
are unchanged by a call, and an immediate second call with the same
arguments returns a structurally equal fragment. -/
theorem partH_frame_spec :
    ∀ (h : Heap) (p : PostH) (key : String) (h2 : Heap) (r : Nat),
      p.frRef < h.soups.length → p.enRef < h.soups.length → p.suffixRef < h.soups.length →
      Post.partH h p key = .ok (h2, r) →
      (Heap.get h2 p.frRef = Heap.get h p.frRef
       ∧ Heap.get h2 p.enRef = Heap.get h p.enRef
       ∧ Heap.get h2 p.suffixRef = Heap.get h p.suffixRef)
      ∧ ∃ (h3 : Heap) (r2 : Nat),
          Post.partH h2 p key = .ok (h3, r2) ∧ Heap.get h3 r2 = Heap.get h2 r := by
  intro h p key h2 r hfr hen hsf hrun
  cases hro : refOf p key with
  | none =>
    rw [partH_none_char h p key hro] at hrun
    simp only [Except.ok.injEq, Prod.mk.injEq] at hrun
    obtain ⟨hh2, hr2⟩ := hrun
    subst hh2
    subst hr2
    refine ⟨⟨heap_get_append_lt h _ _ hfr, heap_get_append_lt h _ _ hen,
      heap_get_append_lt h _ _ hsf⟩, ?_⟩
    refine ⟨_, _, partH_none_char _ p key hro, ?_⟩
    rw [heap_get_append_self, heap_get_append_self]
  | some ref =>
    have href : ref < h.soups.length := by
      unfold refOf at hro
      split at hro
      · cases hro; exact hfr
      · split at hro
        · cases hro; exact hen
        · split at hro
          · cases hro; exact hsf
          · cases hro
    rw [partH_char h p key ref hro href hen] at hrun
    cases hps : partSoup (Heap.get h ref) (Heap.get h p.enRef) p.date key with
    | error e => rw [hps] at hrun; simp at hrun
    | ok s =>
      rw [hps] at hrun
      simp only [Except.ok.injEq, Prod.mk.injEq] at hrun
      obtain ⟨hh2, hr2⟩ := hrun
      subst hh2
      subst hr2
      have hget : ∀ i, i < h.soups.length →
          Heap.get ⟨h.soups ++ [s]⟩ i = Heap.get h i :=
        fun i hi => heap_get_append_lt h s i hi
      refine ⟨⟨hget _ hfr, hget _ hen, hget _ hsf⟩, ?_⟩
      have hlen2 : ref < (h.soups ++ [s]).length := by
        simp only [List.length_append, List.length_singleton]
        omega
      have hlen2e : p.enRef < (h.soups ++ [s]).length := by
        simp only [List.length_append, List.length_singleton]
        omega
      refine ⟨⟨(h.soups ++ [s]) ++ [s]⟩, (h.soups ++ [s]).length, ?_, ?_⟩
      · rw [partH_char ⟨h.soups ++ [s]⟩ p key ref hro hlen2 hlen2e, hget ref href,
          hget p.enRef hen, hps]
      · rw [heap_get_append_self ⟨h.soups ++ [s]⟩ s, heap_get_append_self h s]

/-- Reading any pre-existing cell after three allocations sees the old
contents. -/
theorem heap_get3_lt (h : Heap) (s1 s2 s3 : List Node) (i : Nat) (hi : i < h.soups.length) :
    Heap.get ⟨((h.soups ++ [s1]) ++ [s2]) ++ [s3]⟩ i = Heap.get h i := by
  rw [heap_get_append_lt ⟨(h.soups ++ [s1]) ++ [s2]⟩ s3 i
      (by simp only [List.length_append, List.length_singleton]; omega),
    heap_get_append_lt ⟨h.soups ++ [s1]⟩ s2 i
      (by simp only [List.length_append, List.length_singleton]; omega),
    heap_get_append_lt h s1 i hi]

/-- The first of three allocated cells. -/
theorem heap_get3_first (h : Heap) (s1 s2 s3 : List Node) :
    Heap.get ⟨((h.soups ++ [s1]) ++ [s2]) ++ [s3]⟩ h.soups.length = s1 := by
  rw [heap_get_append_lt ⟨(h.soups ++ [s1]) ++ [s2]⟩ s3 _
      (by simp only [List.length_append, List.length_singleton]; omega),
    heap_get_append_lt ⟨h.soups ++ [s1]⟩ s2 _
      (by simp only [List.length_append, List.length_singleton]; omega)]
  exact heap_get_append_self h s1

/-- The second of three allocated cells. -/
theorem heap_get3_second (h : Heap) (s1 s2 s3 : List Node) :
    Heap.get ⟨((h.soups ++ [s1]) ++ [s2]) ++ [s3]⟩ (h.soups ++ [s1]).length = s2 := by
  rw [heap_get_append_lt ⟨(h.soups ++ [s1]) ++ [s2]⟩ s3 _
      (by simp only [List.length_append, List.length_singleton]; omega)]
  exact heap_get_append_self ⟨h.soups ++ [s1]⟩ s2

/-- The third of three allocated cells. -/
theorem heap_get3_third (h : Heap) (s1 s2 s3 : List Node) :
    Heap.get ⟨((h.soups ++ [s1]) ++ [s2]) ++ [s3]⟩ ((h.soups ++ [s1]) ++ [s2]).length = s3 :=
  heap_get_append_self ⟨(h.soups ++ [s1]) ++ [s2]⟩ s3

/-- Heap-level `Post.assemble` characterized by the pure part bodies:
three copies are allocated and decorated in order, the stored cells are
never written, and the article is built from the three copies'
contents. -/
theorem assembleH_char (h : Heap) (p : PostH)
    (hfr : p.frRef < h.soups.length) (hen : p.enRef < h.soups.length)
    (hsf : p.suffixRef < h.soups.length) :
    Post.assembleH h p =
      match partSoup (Heap.get h p.frRef) (Heap.get h p.enRef) p.date "fr" with
      | .error e => .error e
      | .ok s1 =>
        match partSoup (Heap.get h p.enRef) (Heap.get h p.enRef) p.date "en" with
        | .error e => .error e
        | .ok s2 =>
          match partSoup (Heap.get h p.suffixRef) (Heap.get h p.enRef) p.date "suffix" with
          | .error e => .error e
          | .ok s3 =>
            match getIdSoup (Heap.get h p.enRef) p.date with
            | .error e => .error e
            | .ok pid =>
              .ok (⟨((h.soups ++ [s1]) ++ [s2]) ++ [s3]⟩, buildArticle pid s1 s2 s3) := by
  unfold Post.assembleH
  rw [partH_char h p "fr" p.frRef rfl hfr hen]
  cases h1 : partSoup (Heap.get h p.frRef) (Heap.get h p.enRef) p.date "fr" with
  | error e => rfl
  | ok s1 =>
    dsimp only
    rw [partH_char ⟨h.soups ++ [s1]⟩ p "en" p.enRef rfl
        (by simp only [List.length_append, List.length_singleton]; omega)
        (by simp only [List.length_append, List.length_singleton]; omega),
      heap_get_append_lt h s1 p.enRef hen]
    cases h2c : partSoup (Heap.get h p.enRef) (Heap.get h p.enRef) p.date "en" with
    | error e => rfl
    | ok s2 =>
      dsimp only
      rw [partH_char ⟨(h.soups ++ [s1]) ++ [s2]⟩ p "suffix" p.suffixRef rfl
          (by simp only [List.length_append, List.length_singleton]; omega)
          (by simp only [List.length_append, List.length_singleton]; omega),
        heap_get_append_lt ⟨h.soups ++ [s1]⟩ s2 p.suffixRef
          (by simp only [List.length_append, List.length_singleton]; omega),
        heap_get_append_lt h s1 p.suffixRef hsf,
        heap_get_append_lt ⟨h.soups ++ [s1]⟩ s2 p.enRef
          (by simp only [List.length_append, List.length_singleton]; omega),
        heap_get_append_lt h s1 p.enRef hen]
      cases h3c : partSoup (Heap.get h p.suffixRef) (Heap.get h p.enRef) p.date "suffix" with
      | error e => rfl
      | ok s3 =>
        dsimp only
        rw [heap_get3_lt h s1 s2 s3 p.enRef hen]
        cases h4c : getIdSoup (Heap.get h p.enRef) p.date with
        | error e => rfl
        | ok pid =>
          dsimp only
          rw [heap_get3_first h s1 s2 s3, heap_get3_second h s1 s2 s3,
            heap_get3_third h s1 s2 s3]

/-- Frame property of heap-level `Post.assemble`: the stored sections
are unchanged by a call, and an immediate second call returns a
structurally equal article. -/
theorem assembleH_frame_spec :
    ∀ (h : Heap) (p : PostH) (h2 : Heap) (nd : Node),
      p.frRef < h.soups.length → p.enRef < h.soups.length → p.suffixRef < h.soups.length →
      Post.assembleH h p = .ok (h2, nd) →
      (Heap.get h2 p.frRef = Heap.get h p.frRef
       ∧ Heap.get h2 p.enRef = Heap.get h p.enRef
       ∧ Heap.get h2 p.suffixRef = Heap.get h p.suffixRef)
      ∧ ∃ (h3 : Heap) (nd2 : Node),
          Post.assembleH h2 p = .ok (h3, nd2) ∧ nd2 = nd := by
  intro h p h2 nd hfr hen hsf hrun
  rw [assembleH_char h p hfr hen hsf] at hrun
  cases h1 : partSoup (Heap.get h p.frRef) (Heap.get h p.enRef) p.date "fr" with
  | error e => rw [h1] at hrun; simp at hrun
  | ok s1 =>
    rw [h1] at hrun
    cases h2c : partSoup (Heap.get h p.enRef) (Heap.get h p.enRef) p.date "en" with
    | error e => rw [h2c] at hrun; simp at hrun
    | ok s2 =>
      rw [h2c] at hrun
      cases h3c : partSoup (Heap.get h p.suffixRef) (Heap.get h p.enRef) p.date "suffix" with
      | error e => rw [h3c] at hrun; simp at hrun
      | ok s3 =>
        rw [h3c] at hrun
        cases h4c : getIdSoup (Heap.get h p.enRef) p.date with
        | error e => rw [h4c] at hrun; simp at hrun
        | ok pid =>
          rw [h4c] at hrun
          simp only [Except.ok.injEq, Prod.mk.injEq] at hrun
          obtain ⟨hh2, hnd⟩ := hrun
          subst hh2
          subst hnd
          have hget : ∀ i, i < h.soups.length →
              Heap.get ⟨((h.soups ++ [s1]) ++ [s2]) ++ [s3]⟩ i = Heap.get h i :=
            fun i hi => heap_get3_lt h s1 s2 s3 i hi
          refine ⟨⟨hget _ hfr, hget _ hen, hget _ hsf⟩, ?_⟩
          have hlen : ∀ i, i < h.soups.length →
              i < (((h.soups ++ [s1]) ++ [s2]) ++ [s3]).length := by
            intro i hi
            simp only [List.length_append, List.length_singleton]
            omega
          refine ⟨⟨(((((h.soups ++ [s1]) ++ [s2]) ++ [s3]) ++ [s1]) ++ [s2]) ++ [s3]⟩,
            buildArticle pid s1 s2 s3, ?_, rfl⟩
          rw [assembleH_char ⟨((h.soups ++ [s1]) ++ [s2]) ++ [s3]⟩ p
              (hlen _ hfr) (hlen _ hen) (hlen _ hsf),
            hget _ hfr, hget _ hen, hget _ hsf, h1, h2c, h3c, h4c]

/-- C10: the decoration done by `part` and `assemble` operates on a
copy of the stored parsed sections — no call changes the `Post`'s
stored soups, and an immediate repeated call with the same arguments on
the same post returns a structurally equal fragment. -/
theorem part_assemble_copy_frame :
    (∀ (h : Heap) (p : PostH) (key : String) (h2 : Heap) (r : Nat),
      p.frRef < h.soups.length → p.enRef < h.soups.length → p.suffixRef < h.soups.length →
      Post.partH h p key = .ok (h2, r) →
      (Heap.get h2 p.frRef = Heap.get h p.frRef
       ∧ Heap.get h2 p.enRef = Heap.get h p.enRef
       ∧ Heap.get h2 p.suffixRef = Heap.get h p.suffixRef)
      ∧ ∃ (h3 : Heap) (r2 : Nat),
          Post.partH h2 p key = .ok (h3, r2) ∧ Heap.get h3 r2 = Heap.get h2 r)
    ∧ (∀ (h : Heap) (p : PostH) (h2 : Heap) (nd : Node),
      p.frRef < h.soups.length → p.enRef < h.soups.length → p.suffixRef < h.soups.length →
      Post.assembleH h p = .ok (h2, nd) →
      (Heap.get h2 p.frRef = Heap.get h p.frRef
       ∧ Heap.get h2 p.enRef = Heap.get h p.enRef
       ∧ Heap.get h2 p.suffixRef = Heap.get h p.suffixRef)
      ∧ ∃ (h3 : Heap) (nd2 : Node),
          Post.assembleH h2 p = .ok (h3, nd2) ∧ nd2 = nd) :=
  ⟨partH_frame_spec, assembleH_frame_spec⟩

/-- Witness for C10 at the concrete three-section heap fixture. -/
theorem part_assemble_copy_frame_witness :
    (pHFix.frRef < heapFix.soups.length
     ∧ pHFix.enRef < heapFix.soups.length
     ∧ pHFix.suffixRef < heapFix.soups.length
     ∧ Post.partH heapFix pHFix "fr" = .ok (⟨heapFix.soups ++ [frDecorated]⟩, 3))
    ∧ ((Heap.get ⟨heapFix.soups ++ [frDecorated]⟩ pHFix.frRef = Heap.get heapFix pHFix.frRef
        ∧ Heap.get ⟨heapFix.soups ++ [frDecorated]⟩ pHFix.enRef = Heap.get heapFix pHFix.enRef
        ∧ Heap.get ⟨heapFix.soups ++ [frDecorated]⟩ pHFix.suffixRef
            = Heap.get heapFix pHFix.suffixRef)
       ∧ ∃ (h3 : Heap) (r2 : Nat),
          Post.partH ⟨heapFix.soups ++ [frDecorated]⟩ pHFix "fr" = .ok (h3, r2)
          ∧ Heap.get h3 r2 = Heap.get ⟨heapFix.soups ++ [frDecorated]⟩ 3) :=
  ⟨⟨by decide, by decide, by decide, by decide⟩,
   part_assemble_copy_frame.1 heapFix pHFix "fr" ⟨heapFix.soups ++ [frDecorated]⟩ 3
     (by decide) (by decide) (by decide) (by decide)⟩
